import Mathlib

/-!
Verification development for the GFN client repository.

The embedding models, in Lean, the data-access layer of
src/api/firebaseService.js, the auth-state sequencing of
src/contexts/UserContext.js, the route gating of
src/components/common/PrivateRoute.js, and the profile-setup write path of
src/components/profile/UserProfileSetup.js, together with the behaviour of
the external collaborators those files use (the Firestore document store
and a few JS string builtins), as documented in the repository design
specification.
-/

set_option maxHeartbeats 1000000

namespace GFN

/-! ## JS strings and builtins -/

/-- JS string, modelled as its list of UTF-16 code units. -/
abbrev Str := List Nat

/-- View a Lean string literal in the code-unit model. -/
def ofString (s : String) : Str := s.data.map Char.toNat

/-- Models the JS toLowerCase builtin on a single code unit (faithful on the
Basic Latin range, which covers every literal occurring in the claims). -/
def lowerUnit (u : Nat) : Nat := if 65 ≤ u ∧ u ≤ 90 then u + 32 else u

/-- Models the JS toLowerCase builtin. -/
def jsToLower (s : Str) : Str := s.map lowerUnit

/-- Whether a code unit is JS whitespace (the cases relevant to trim). -/
def isJsSpace (u : Nat) : Bool := u = 32 || u = 9 || u = 10 || u = 11 || u = 12 || u = 13

/-- Models the JS trim builtin: drop leading and trailing whitespace. -/
def jsTrim (s : Str) : Str :=
  ((s.dropWhile isJsSpace).reverse.dropWhile isJsSpace).reverse

/-! ## Data model -/

/-- The auth record delivered by the auth provider callback: at least uid and
email (the two fields the repository reads). -/
structure AuthUser where
  uid : String
  email : Str
deriving DecidableEq

/-- The value stored in the user context by setUser in UserContext.js: the
spread auth record plus a displayName and a profileComplete flag. -/
structure SessionUser where
  uid : String
  email : Str
  displayName : Str
  profileComplete : Bool
deriving DecidableEq

/-- A profile document as returned by fetchUserProfile and searchUserProfiles
(document id plus the fields the repository reads). -/
structure Profile where
  id : String
  displayName : Str
  lowercaseDisplayName : Str
deriving DecidableEq

/-! ## RouteGate: src/components/common/PrivateRoute.js -/

/-- The four outcomes of the route gate. -/
inductive RouteDecision where
  | wait
  | redirectToAuth
  | redirectToSetup
  | allow
deriving DecidableEq

/-- Embeds the decision logic of PrivateRoute: spinner while loadingUser,
redirect to /auth when there is no user, redirect to /setup-profile when the
profile is incomplete and the current path is not already the setup page,
otherwise render the children. -/
def privateRoute (loadingUser : Bool) (user : Option SessionUser)
    (isSetupPage : Bool) : RouteDecision :=
  if loadingUser then .wait
  else
    match user with
    | none => .redirectToAuth
    | some u => if !u.profileComplete && !isSetupPage then .redirectToSetup else .allow

/-- The five session states of the sequencer described in the specification. -/
inductive SessionState where
  | unknown
  | anonymous
  | authenticatedPending (a : AuthUser)
  | authenticatedIncomplete (u : SessionUser)
  | authenticatedComplete (u : SessionUser)

/-- The context view (loadingUser flag, user value) that each session state
presents to PrivateRoute: unknown and pending are observed as loading, the
two authenticated states carry the session user with the profileComplete
flag the sequencer set in that state. -/
def stateView : SessionState → Bool × Option SessionUser
  | .unknown => (true, none)
  | .authenticatedPending _ => (true, none)
  | .anonymous => (false, none)
  | .authenticatedIncomplete u => (false, some { u with profileComplete := false })
  | .authenticatedComplete u => (false, some { u with profileComplete := true })

/-- RouteGate as a function of the session state and the current path. -/
def routeGate (s : SessionState) (isSetupPage : Bool) : RouteDecision :=
  privateRoute (stateView s).1 (stateView s).2 isSetupPage

/-- C5: RouteGate is a pure function of the session state and the
currentPathIsSetupPage flag with exactly the claimed truth table: unknown and
pending map to wait, anonymous maps to redirectToAuth, incomplete off the
setup page maps to redirectToSetup, incomplete on the setup page maps to
allow, and complete maps to allow. -/
theorem routeGate_truth_table (p : Bool) (a : AuthUser) (u : SessionUser) :
    routeGate .unknown p = .wait ∧
    routeGate (.authenticatedPending a) p = .wait ∧
    routeGate .anonymous p = .redirectToAuth ∧
    routeGate (.authenticatedIncomplete u) false = .redirectToSetup ∧
    routeGate (.authenticatedIncomplete u) true = .allow ∧
    routeGate (.authenticatedComplete u) p = .allow := by
  cases p <;> simp [routeGate, stateView, privateRoute]

/-! ## SessionSequencer: src/contexts/UserContext.js

The onAuthStateChanged callback in UserProvider is an async function: for a
signed-in notification it awaits fetchUserProfile and only then calls setUser
and setLoadingUser, while for a signed-out notification it runs synchronously.
The model below makes the suspension point explicit: a signed-in notification
only records an in-flight lookup, and a separate settle event runs the
continuation of one in-flight lookup. The environment fixes, per uid, what
the profile fetch yields when it settles. -/

/-- Outcome of the profile lookup for a uid: document found, document absent
(fetchUserProfile returns null), or the Firestore call rejecting. -/
inductive FetchResult where
  | found (p : Profile)
  | absent
  | failed
deriving DecidableEq

/-- Association-list lookup keyed by strings. -/
def aGet {α : Type} : List (String × α) → String → Option α
  | [], _ => none
  | (k, v) :: rest, key => if k = key then some v else aGet rest key

/-- The fetch environment: what fetchUserProfile yields for each uid; a uid
not listed has no profile document. -/
def lookupFetch (env : List (String × FetchResult)) (uid : String) : FetchResult :=
  (aGet env uid).getD .absent

/-- The React state owned by UserProvider (user and loadingUser), plus the
list of profile lookups currently suspended at their await, in issue order. -/
structure CtxState where
  user : Option SessionUser
  loadingUser : Bool
  pending : List AuthUser
deriving DecidableEq

/-- Initial provider state: user null, loadingUser true, nothing in flight. -/
def initialCtx : CtxState := { user := none, loadingUser := true, pending := [] }

/-- An observable event: an auth-state notification arriving, or the profile
lookup of the i-th in-flight callback settling. -/
inductive AuthEvent where
  | notify (a : Option AuthUser)
  | settle (i : Nat)
deriving DecidableEq

/-- One step of the onAuthStateChanged callback machinery.

A signed-out notification runs the callback synchronously: setUser(null) then
setLoadingUser(false); lookups already in flight stay in flight. A signed-in
notification starts the callback, which immediately suspends on the awaited
fetchUserProfile call, so the only effect is a new in-flight lookup. When an
in-flight lookup settles, the continuation after the await runs: on a found
profile, setUser with the profile displayName and profileComplete true; on an
absent profile, setUser with the email as displayName and profileComplete
false; in both cases setLoadingUser(false). When the fetch rejects, nothing
in the callback catches it, so the rest of the callback is skipped and
neither setUser nor setLoadingUser runs. -/
def step (env : List (String × FetchResult)) (s : CtxState) : AuthEvent → CtxState
  | .notify none => { user := none, loadingUser := false, pending := s.pending }
  | .notify (some a) => { s with pending := s.pending ++ [a] }
  | .settle i =>
    match s.pending.get? i with
    | none => s
    | some a =>
      let rest := s.pending.eraseIdx i
      match lookupFetch env a.uid with
      | .found p =>
        { user := some ⟨a.uid, a.email, p.displayName, true⟩,
          loadingUser := false, pending := rest }
      | .absent =>
        { user := some ⟨a.uid, a.email, a.email, false⟩,
          loadingUser := false, pending := rest }
      | .failed => { s with pending := rest }

/-- Run the provider from its initial state over a list of events. -/
def run (env : List (String × FetchResult)) (evs : List AuthEvent) : CtxState :=
  evs.foldl (step env) initialCtx

/-- Sample auth records and profiles used in the concrete executions. -/
def authA : AuthUser := { uid := "a", email := ofString "a@x.test" }

def authB : AuthUser := { uid := "b", email := ofString "b@x.test" }

def profA : Profile :=
  { id := "a", displayName := ofString "Alice", lowercaseDisplayName := ofString "alice" }

def profB : Profile :=
  { id := "b", displayName := ofString "Bob", lowercaseDisplayName := ofString "bob" }

/-- Environment in which both uids have profile documents. -/
def envAB : List (String × FetchResult) := [("a", .found profA), ("b", .found profB)]

/-- C1: the code does not enforce the claimed ordering guarantee. With
notifications carrying identity a then identity b, where the lookup for b
settles first and the lookup for a settles last, the final user value stored
by UserProvider reflects identity a, a stale overwrite, and differs from the
session for identity b that the claim requires. -/
theorem race_stale_overwrite :
    (run envAB [.notify (some authA), .notify (some authB), .settle 1, .settle 0]).user
      = some ⟨"a", ofString "a@x.test", ofString "Alice", true⟩ ∧
    (some (⟨"a", ofString "a@x.test", ofString "Alice", true⟩ : SessionUser)
      ≠ some (⟨"b", ofString "b@x.test", ofString "Bob", true⟩ : SessionUser)) := by
  exact ⟨by decide, by decide⟩

/-- C2: a signed-out notification does not cancel lookups already in flight.
After notification with identity a, then the signed-out notification, the
late settling of the lookup for a overwrites the null user, so the final
state is a non-null session rather than no session. -/
theorem signout_stale_overwrite :
    (run envAB [.notify (some authA), .notify none, .settle 0]).user
      = some ⟨"a", ofString "a@x.test", ofString "Alice", true⟩ ∧
    (run envAB [.notify (some authA), .notify none, .settle 0]).user ≠ none := by
  exact ⟨by decide, by decide⟩

/-- Environment in which the profile fetch for uid a rejects. -/
def envFail : List (String × FetchResult) := [("a", .failed)]

/-- C3: nothing in the callback catches a rejected profile fetch. When the
lookup for identity a fails, the continuation is skipped: the user value is
never set (no degraded incomplete session) and the one-shot loading flag is
never set to false, so the provider stays stuck in the loading state. -/
theorem fetch_failure_stuck :
    (run envFail [.notify (some authA), .settle 0]).user = none ∧
    (run envFail [.notify (some authA), .settle 0]).loadingUser = true := by
  exact ⟨by decide, by decide⟩

/-- C4: for a single notification carrying an identity whose lookup settles,
the provider stores exactly the claimed session: with a profile document
found, a session with the profile displayName and profileComplete true; with
no profile document, a session with the auth email as displayName and
profileComplete false; in both cases the loading flag ends up false. -/
theorem single_notification_settles (env : List (String × FetchResult)) (a : AuthUser) :
    (∀ p, lookupFetch env a.uid = .found p →
      (run env [.notify (some a), .settle 0]).user
          = some ⟨a.uid, a.email, p.displayName, true⟩ ∧
        (run env [.notify (some a), .settle 0]).loadingUser = false) ∧
    (lookupFetch env a.uid = .absent →
      (run env [.notify (some a), .settle 0]).user
          = some ⟨a.uid, a.email, a.email, false⟩ ∧
        (run env [.notify (some a), .settle 0]).loadingUser = false) := by
  constructor
  · intro p hp
    simp [run, step, initialCtx, hp]
  · intro hp
    simp [run, step, initialCtx, hp]

/-- Witness for C4: in an environment where uid a has a profile and uid b has
none, the two branches of the theorem applied at those identities. -/
theorem single_notification_settles_witness :
    lookupFetch envAB "a" = .found profA ∧
    (run envAB [.notify (some authA), .settle 0]).user
      = some ⟨"a", ofString "a@x.test", ofString "Alice", true⟩ ∧
    lookupFetch envAB "c" = .absent ∧
    (run envAB [.notify (some ⟨"c", ofString "c@x.test"⟩), .settle 0]).user
      = some ⟨"c", ofString "c@x.test", ofString "c@x.test", false⟩ := by
  refine ⟨by decide, ?_, by decide, ?_⟩
  · exact ((single_notification_settles envAB authA).1 profA (by decide)).1
  · exact ((single_notification_settles envAB ⟨"c", ofString "c@x.test"⟩).2 (by decide)).1

/-! ## ProfileStore writes: setUserProfile in src/api/firebaseService.js

Profile documents are field maps; they are modelled as association lists from
field names to field values. The setDoc call with merge true is the document
store collaborator: supplied fields overwrite same-named fields of an
existing document, the other fields are kept, and a missing document is
created from the supplied fields. -/

/-- A field value of a profile document: a string or a timestamp. -/
inductive FieldValue where
  | vstr (s : Str)
  | vtime (t : Nat)
deriving DecidableEq

/-- A profile document as a field map. -/
abbrev FieldRec := List (String × FieldValue)

/-- The userProfiles collection: documents keyed by uid. -/
abbrev ProfileStore := List (String × FieldRec)

/-- Merge-write semantics of the document store: the supplied fields come
first (overwriting), the fields of the old document not named in the update
are kept. -/
def mergeRec (old pd : FieldRec) : FieldRec :=
  pd ++ old.filter (fun kv => (aGet pd kv.1).isNone)

/-- The document store executing setDoc with merge true at key uid. -/
def setDocMerge (store : ProfileStore) (uid : String) (pd : FieldRec) : ProfileStore :=
  (uid, mergeRec ((aGet store uid).getD []) pd) ::
    store.filter (fun kv => decide (kv.1 ≠ uid))

/-- Embeds setUserProfile: it throws when the uid or the profile data is JS
falsy, otherwise it issues the merge write. For the uid, falsy means the
empty string; for the profile data, falsy means undefined or null (modelled
as none), while a present object is truthy even when it has no fields. -/
def setUserProfile (uid : String) (profileData : Option FieldRec)
    (store : ProfileStore) : Except String ProfileStore :=
  if uid = "" ∨ profileData = none then
    .error "UID and profile data are required to set a user profile."
  else
    .ok (setDocMerge store uid (profileData.getD []))

/-- The store after a setUserProfile call whose error, if any, is caught by
the caller: on error the store is unchanged. -/
def upsertRun (uid : String) (profileData : Option FieldRec)
    (store : ProfileStore) : ProfileStore :=
  match setUserProfile uid profileData store with
  | .ok s => s
  | .error _ => store

/-- Field k of the document stored at key uid. -/
def recField (store : ProfileStore) (uid k : String) : Option FieldValue :=
  (aGet store uid).bind (fun r => aGet r k)

/-! ### Association-list lemmas -/

theorem aGet_cons {α : Type} (k₀ : String) (v₀ : α) (t : List (String × α)) (k : String) :
    aGet ((k₀, v₀) :: t) k = if k₀ = k then some v₀ else aGet t k := rfl

theorem aGet_append_some {α : Type} {l₁ l₂ : List (String × α)} {k : String} {v : α}
    (h : aGet l₁ k = some v) : aGet (l₁ ++ l₂) k = some v := by
  induction l₁ with
  | nil => simp [aGet] at h
  | cons kv t ih =>
    obtain ⟨k₀, v₀⟩ := kv
    by_cases hk : k₀ = k
    · simp [aGet, hk] at h ⊢
      exact h
    · simp [aGet, hk] at h ⊢
      exact ih h

theorem aGet_append_none {α : Type} {l₁ : List (String × α)} (l₂ : List (String × α))
    {k : String} (h : aGet l₁ k = none) : aGet (l₁ ++ l₂) k = aGet l₂ k := by
  induction l₁ with
  | nil => rfl
  | cons kv t ih =>
    obtain ⟨k₀, v₀⟩ := kv
    by_cases hk : k₀ = k
    · simp [aGet, hk] at h
    · simp [aGet, hk] at h ⊢
      exact ih h

theorem aGet_filter_of_key {α : Type} (p : String × α → Bool) (l : List (String × α))
    (k : String) (h : ∀ v : α, p (k, v) = true) :
    aGet (l.filter p) k = aGet l k := by
  induction l with
  | nil => rfl
  | cons kv t ih =>
    obtain ⟨k₀, v₀⟩ := kv
    by_cases hk : k₀ = k
    · subst hk
      simp [List.filter_cons, h v₀, aGet]
    · by_cases hp : p (k₀, v₀)
      · simp [List.filter_cons, hp, aGet, hk, ih]
      · simp only [List.filter_cons, Bool.not_eq_true] at hp ⊢
        rw [hp]
        simp [aGet, hk, ih]

theorem aGet_fst_isSome {α : Type} (l : List (String × α)) :
    ∀ kv ∈ l, (aGet l kv.1).isSome := by
  induction l with
  | nil => intro kv h; simp at h
  | cons hd t ih =>
    obtain ⟨k₀, v₀⟩ := hd
    intro kv hkv
    by_cases hk : k₀ = kv.1
    · simp [aGet, hk]
    · rcases List.mem_cons.mp hkv with h | h
      · rw [h] at hk
        simp at hk
      · simp [aGet, hk]
        exact ih kv h

theorem filter_false_of_mem {α : Type} {p : α → Bool} {l : List α}
    (h : ∀ a ∈ l, p a = false) : l.filter p = [] := by
  induction l with
  | nil => rfl
  | cons a t ih =>
    rw [List.filter_cons, h a (List.mem_cons_self a t)]
    simp only [Bool.false_eq_true, if_false]
    exact ih fun b hb => h b (List.mem_cons_of_mem a hb)

theorem filter_idem {α : Type} (p : α → Bool) (l : List α) :
    (l.filter p).filter p = l.filter p := by
  induction l with
  | nil => rfl
  | cons a t ih =>
    by_cases h : p a <;> simp [List.filter_cons, h, ih]

/-! ### Merge lemmas -/

theorem aGet_mergeRec_some {old pd : FieldRec} {k : String} {v : FieldValue}
    (h : aGet pd k = some v) : aGet (mergeRec old pd) k = some v :=
  aGet_append_some h

theorem aGet_mergeRec_none {old pd : FieldRec} {k : String}
    (h : aGet pd k = none) : aGet (mergeRec old pd) k = aGet old k := by
  rw [mergeRec, aGet_append_none _ h]
  exact aGet_filter_of_key _ old k fun v => by simp [h]

theorem mergeRec_nil (pd : FieldRec) : mergeRec [] pd = pd := by
  simp [mergeRec]

theorem mergeRec_merge_self (old pd : FieldRec) :
    mergeRec (mergeRec old pd) pd = mergeRec old pd := by
  unfold mergeRec
  rw [List.filter_append]
  rw [filter_false_of_mem (fun kv hkv => by
    simpa using aGet_fst_isSome pd kv hkv)]
  rw [filter_idem]
  simp

theorem setDocMerge_idem (store : ProfileStore) (uid : String) (pd : FieldRec) :
    setDocMerge (setDocMerge store uid pd) uid pd = setDocMerge store uid pd := by
  unfold setDocMerge
  rw [aGet_cons, if_pos rfl]
  simp only [Option.getD_some]
  rw [mergeRec_merge_self]
  rw [List.filter_cons]
  simp only [ne_eq, not_true_eq_false, decide_eq_true_eq, if_neg, if_false,
    decide_eq_false_iff_not, Bool.false_eq_true, reduceIte]
  rw [filter_idem]

theorem upsertRun_of_ne {uid : String} (pd : FieldRec) (store : ProfileStore)
    (h : ¬uid = "") : upsertRun uid (some pd) store = setDocMerge store uid pd := by
  simp [upsertRun, setUserProfile, h]

/-! ### C7 -/

/-- C7 counterexample: with a non-empty uid and a present but empty field
object, the call succeeds (an empty JS object is truthy), while the claim
requires an InvalidArgument failure for empty fields. -/
theorem setUserProfile_empty_fields_ok :
    (some ([] : FieldRec)) ≠ (none : Option FieldRec) ∧
    setUserProfile "u1" (some []) [] = .ok [("u1", [])] := by
  exact ⟨by simp, rfl⟩

/-- C7 amended: setUserProfile fails if and only if the uid is empty or the
profile data is undefined or null; every call with a non-empty uid and a
present field object, including the empty one, succeeds. -/
theorem setUserProfile_error_iff (uid : String) (pd : Option FieldRec)
    (store : ProfileStore) :
    (∃ e, setUserProfile uid pd store = .error e) ↔ (uid = "" ∨ pd = none) := by
  by_cases h : uid = "" ∨ pd = none
  · rw [setUserProfile, if_pos h]
    exact iff_of_true ⟨_, rfl⟩ h
  · rw [setUserProfile, if_neg h]
    exact iff_of_false (fun he => Except.noConfusion he.choose_spec) h

/-! ### C8 -/

/-- C8: the merge-upsert is idempotent (running the same call twice leaves
the same store as running it once, with or without a valid uid), and on a
valid uid the supplied fields overwrite same-named fields of the stored
document, fields not supplied keep their previous value, and when no
document existed the stored document is exactly the supplied field map. -/
theorem upsertRun_merge_algebra (uid : String) (pd : FieldRec) (store : ProfileStore) :
    upsertRun uid (some pd) (upsertRun uid (some pd) store)
        = upsertRun uid (some pd) store ∧
    (uid ≠ "" →
      (∀ k v, aGet pd k = some v →
        recField (upsertRun uid (some pd) store) uid k = some v) ∧
      (∀ k, aGet pd k = none →
        recField (upsertRun uid (some pd) store) uid k = recField store uid k) ∧
      (aGet store uid = none →
        aGet (upsertRun uid (some pd) store) uid = some pd)) := by
  by_cases h : uid = ""
  · refine ⟨?_, fun hne => absurd h hne⟩
    simp [upsertRun, setUserProfile, h]
  · rw [upsertRun_of_ne pd store h, upsertRun_of_ne pd _ h]
    refine ⟨setDocMerge_idem store uid pd, fun _ => ⟨?_, ?_, ?_⟩⟩
    · intro k v hk
      rw [recField, setDocMerge, aGet_cons, if_pos rfl]
      simpa using aGet_mergeRec_some hk
    · intro k hk
      rw [recField, setDocMerge, aGet_cons, if_pos rfl]
      simp only [Option.some_bind]
      rw [aGet_mergeRec_none hk, recField]
      cases hs : aGet store uid <;> simp [hs, aGet]
    · intro hs
      rw [setDocMerge, hs, aGet_cons, if_pos rfl]
      simp [mergeRec_nil]

/-- Sample update and store for the C8 witness, taken from the testable
property in the specification: a stored document with displayName X and
email e, updated with displayName Y. -/
def pdY : FieldRec := [("displayName", .vstr (ofString "Y"))]

def storeXe : ProfileStore :=
  [("id1", [("displayName", .vstr (ofString "X")), ("email", .vstr (ofString "e"))])]

/-- Witness for C8: updating the sample store at a non-empty uid overwrites
displayName with Y and keeps the email field. -/
theorem upsertRun_merge_algebra_witness :
    ("id1" : String) ≠ "" ∧
    aGet pdY "displayName" = some (.vstr (ofString "Y")) ∧
    recField (upsertRun "id1" (some pdY) storeXe) "id1" "displayName"
      = some (.vstr (ofString "Y")) ∧
    recField (upsertRun "id1" (some pdY) storeXe) "id1" "email"
      = recField storeXe "id1" "email" := by
  refine ⟨by decide, by decide, ?_, ?_⟩
  · exact ((upsertRun_merge_algebra "id1" pdY storeXe).2 (by decide)).1
      "displayName" (.vstr (ofString "Y")) (by decide)
  · exact (((upsertRun_merge_algebra "id1" pdY storeXe).2 (by decide)).2.1
      "email" (by decide))

/-! ## Profile setup: src/components/profile/UserProfileSetup.js -/

/-- The field map written by handleSubmit: the trimmed display name, its
lowercase form for search, the email from the context user, and a creation
timestamp. -/
def setupProfileData (u : SessionUser) (displayName : Str) (now : Nat) : FieldRec :=
  [("displayName", .vstr (jsTrim displayName)),
   ("lowercaseDisplayName", .vstr (jsToLower (jsTrim displayName))),
   ("email", .vstr u.email),
   ("createdAt", .vtime now)]

/-- Embeds the store effect of handleSubmit: when there is no context user or
the trimmed display name is empty, validation stops before any write; when a
setUserProfile error is thrown it is caught, leaving the store unchanged
(upsertRun); otherwise the setup fields are merge-written under the user
uid. -/
def handleSubmit (user : Option SessionUser) (displayName : Str) (now : Nat)
    (store : ProfileStore) : ProfileStore :=
  match user with
  | none => store
  | some u =>
    if jsTrim displayName = [] then store
    else upsertRun u.uid (some (setupProfileData u displayName now)) store

/-- The search-visibility invariant of a profile document: whenever the
document has a string displayName field, its lowercaseDisplayName field is
that string lower-cased. -/
def lowerInv (r : FieldRec) : Prop :=
  ∀ s, aGet r "displayName" = some (.vstr s) →
    aGet r "lowercaseDisplayName" = some (.vstr (jsToLower s))

/-- C9: the profile-setup submission path preserves the lowercase invariant:
if every document of the store satisfies it, then after any handleSubmit
(any context user, any input, any clock) every document still satisfies it,
because the path always writes displayName together with its lowercase
form. -/
theorem handleSubmit_preserves_lowerInv (user : Option SessionUser) (dn : Str)
    (now : Nat) (store : ProfileStore)
    (h : ∀ uid r, aGet store uid = some r → lowerInv r) :
    ∀ uid r, aGet (handleSubmit user dn now store) uid = some r → lowerInv r := by
  cases user with
  | none => exact h
  | some u =>
    rw [handleSubmit]
    by_cases ht : jsTrim dn = []
    · rw [if_pos ht]
      exact h
    · rw [if_neg ht]
      by_cases hu : u.uid = ""
      · simp only [upsertRun, setUserProfile, hu, true_or, if_pos]
        exact h
      · rw [upsertRun_of_ne _ store hu]
        intro uid r hr
        rw [setDocMerge, aGet_cons] at hr
        by_cases huid : u.uid = uid
        · rw [if_pos huid] at hr
          cases hr
          intro s hs
          have hdn : aGet (setupProfileData u dn now) "displayName"
              = some (.vstr (jsTrim dn)) := by
            simp [setupProfileData, aGet]
          have hlo : aGet (setupProfileData u dn now) "lowercaseDisplayName"
              = some (.vstr (jsToLower (jsTrim dn))) := by
            simp [setupProfileData, aGet]
          rw [aGet_mergeRec_some hdn] at hs
          cases hs
          exact aGet_mergeRec_some hlo
        · rw [if_neg huid] at hr
          rw [aGet_filter_of_key _ store uid (fun v => by
            simp
            exact fun hvv => huid hvv.symm)] at hr
          exact h uid r hr

/-- Concrete inputs for the C9 witness. -/
def userC9 : SessionUser :=
  { uid := "u1", email := ofString "e@x.test",
    displayName := ofString "e@x.test", profileComplete := false }

def dnC9 : Str := ofString "  Flourish Fan "

/-- The document the C9 witness run stores under uid u1. -/
def recC9 : FieldRec := mergeRec [] (setupProfileData userC9 dnC9 0)

/-- Witness for C9: submitting the sample display name over the empty store
yields a document whose lowercaseDisplayName field is the lower-cased
trimmed display name. -/
theorem handleSubmit_preserves_lowerInv_witness :
    aGet (handleSubmit (some userC9) dnC9 0 []) "u1" = some recC9 ∧
    aGet recC9 "lowercaseDisplayName" = some (.vstr (jsToLower (jsTrim dnC9))) := by
  refine ⟨by decide, ?_⟩
  exact handleSubmit_preserves_lowerInv (some userC9) dnC9 0 []
    (fun uid r hr => Option.noConfusion hr) "u1" recC9 (by decide)
    (jsTrim dnC9) (by decide)

/-! ## Name search: searchUserProfiles in src/api/firebaseService.js

The query built by the source filters the userProfiles collection with two
range conditions on lowercaseDisplayName, at least the lower-cased query text
and at most the lower-cased query text with the high sentinel appended, and
limits the result to 5 documents. The document store executes a range query
over the index of the filtered field, which orders the results by that field
ascending; the model below runs the query as filter over the index-sorted
collection followed by the limit. -/

/-- The high sentinel code unit of the query upper bound. -/
def uf8ff : Nat := 63743

/-- Index order of the userProfiles collection for this query: lexicographic
order of the code units of lowercaseDisplayName. -/
def keyLe (a b : Profile) : Prop := a.lowercaseDisplayName ≤ b.lowercaseDisplayName

instance : DecidableRel keyLe := fun a b =>
  inferInstanceAs (Decidable (a.lowercaseDisplayName ≤ b.lowercaseDisplayName))

instance : IsTotal Profile keyLe :=
  ⟨fun x y => le_total x.lowercaseDisplayName y.lowercaseDisplayName⟩

instance : IsTrans Profile keyLe := ⟨fun _ _ _ => le_trans⟩

/-- The conjunction of the two range conditions the source puts in the
query: lowercaseDisplayName at least the lower-cased query and at most the
lower-cased query with the sentinel appended (both bounds inclusive, the
source uses greater-or-equal and less-or-equal). -/
def rangeMatches (lowercasedQuery : Str) (p : Profile) : Bool :=
  decide (lowercasedQuery ≤ p.lowercaseDisplayName) &&
    decide (p.lowercaseDisplayName ≤ lowercasedQuery ++ [uf8ff])

/-- Embeds searchUserProfiles: empty or whitespace-only query text returns
the empty list with no query issued; otherwise the range query with the two
bounds on the lower-cased query text, executed over the sorted index, limited
to 5 documents. -/
def searchUserProfiles (db : List Profile) (queryText : Str) : List Profile :=
  if queryText = [] ∨ jsTrim queryText = [] then []
  else
    ((List.insertionSort keyLe db).filter
        (rangeMatches (jsToLower queryText))).take 5

/-- Elements of the front of a sorted list are below elements of the back. -/
theorem pairwise_take_le_drop {α : Type} {R : α → α → Prop} {l : List α}
    (hs : List.Pairwise R l) (n : Nat) :
    ∀ x ∈ l.take n, ∀ y ∈ l.drop n, R x y := by
  rw [← List.take_append_drop n l] at hs
  exact (List.pairwise_append.mp hs).2.2

/-- C6 counterexample: a document whose lowercaseDisplayName is exactly the
lower-cased query text with the sentinel appended. The source query returns
it, yet it lies outside the half-open range of the claim, whose upper bound
is strict. -/
def profHi : Profile :=
  { id := "hi", displayName := ofString "FL",
    lowercaseDisplayName := ofString "fl" ++ [uf8ff] }

/-- C6 counterexample theorem: over a store holding only the boundary
document, the search for the query text fl returns that document although
its key does not lie strictly below the sentinel bound, refuting the
half-open-range characterisation of the result set. -/
theorem searchUserProfiles_boundary_included :
    searchUserProfiles [profHi] (ofString "fl") = [profHi] ∧
    ¬ (profHi.lowercaseDisplayName < jsToLower (ofString "fl") ++ [uf8ff]) := by
  exact ⟨by decide, by decide⟩

/-- C6 amended: for every non-empty, non-whitespace query text, the search
returns exactly the profiles of the store whose lowercaseDisplayName lies in
the closed range from the lower-cased query text to the lower-cased query
text with the sentinel appended (the source bounds are both inclusive),
ordered by lowercaseDisplayName ascending, capped at 5, and keeping the 5
smallest keys when more than 5 match. -/
theorem searchUserProfiles_range_spec (db : List Profile) (q : Str)
    (h1 : q ≠ []) (h2 : jsTrim q ≠ []) :
    List.Sorted keyLe (searchUserProfiles db q) ∧
    (∀ p ∈ searchUserProfiles db q,
      p ∈ db ∧ jsToLower q ≤ p.lowercaseDisplayName ∧
        p.lowercaseDisplayName ≤ jsToLower q ++ [uf8ff]) ∧
    (searchUserProfiles db q).length
        = min (db.filter (rangeMatches (jsToLower q))).length 5 ∧
    (∀ p ∈ searchUserProfiles db q, ∀ m ∈ db,
      rangeMatches (jsToLower q) m = true → m ∉ searchUserProfiles db q →
        keyLe p m) ∧
    ((db.filter (rangeMatches (jsToLower q))).length ≤ 5 →
      (searchUserProfiles db q).Perm (db.filter (rangeMatches (jsToLower q)))) := by
  have hres : searchUserProfiles db q
      = ((List.insertionSort keyLe db).filter (rangeMatches (jsToLower q))).take 5 := by
    rw [searchUserProfiles, if_neg (not_or.mpr ⟨h1, h2⟩)]
  have hFsorted : List.Sorted keyLe
      ((List.insertionSort keyLe db).filter (rangeMatches (jsToLower q))) :=
    (List.sorted_insertionSort keyLe db).filter _
  have hFperm : ((List.insertionSort keyLe db).filter
        (rangeMatches (jsToLower q))).Perm (db.filter (rangeMatches (jsToLower q))) :=
    (List.perm_insertionSort keyLe db).filter _
  refine ⟨?_, ?_, ?_, ?_, ?_⟩
  · rw [hres]
    exact hFsorted.sublist (List.take_sublist 5 _)
  · intro p hp
    rw [hres] at hp
    have hpF := List.take_subset 5 _ hp
    rcases List.mem_filter.mp hpF with ⟨hmem, hmatch⟩
    refine ⟨(List.perm_insertionSort keyLe db).subset hmem, ?_⟩
    simpa [rangeMatches] using hmatch
  · rw [hres, List.length_take, hFperm.length_eq, Nat.min_comm]
  · intro p hp m hm hmatch hnot
    have hmF : m ∈ (List.insertionSort keyLe db).filter (rangeMatches (jsToLower q)) :=
      List.mem_filter.mpr ⟨(List.perm_insertionSort keyLe db).mem_iff.mpr hm, hmatch⟩
    rw [hres] at hp hnot
    have hmdrop : m ∈ ((List.insertionSort keyLe db).filter
        (rangeMatches (jsToLower q))).drop 5 := by
      rw [← List.take_append_drop 5 ((List.insertionSort keyLe db).filter
        (rangeMatches (jsToLower q)))] at hmF
      rcases List.mem_append.mp hmF with h | h
      · exact absurd h hnot
      · exact h
    exact pairwise_take_le_drop hFsorted 5 p hp m hmdrop
  · intro hlen
    rw [hres, List.take_of_length_le (by rw [hFperm.length_eq]; exact hlen)]
    exact hFperm

/-- The profile store of the testable property in the specification: six
documents with fl-prefixed lowercase display names. -/
def flDb : List Profile :=
  [{ id := "1", displayName := ofString "Flourish",
     lowercaseDisplayName := ofString "flourish" },
   { id := "2", displayName := ofString "Flower",
     lowercaseDisplayName := ofString "flower" },
   { id := "3", displayName := ofString "Flame",
     lowercaseDisplayName := ofString "flame" },
   { id := "4", displayName := ofString "Flagship",
     lowercaseDisplayName := ofString "flagship" },
   { id := "5", displayName := ofString "Flask",
     lowercaseDisplayName := ofString "flask" },
   { id := "6", displayName := ofString "Flux",
     lowercaseDisplayName := ofString "flux" }]

/-- Witness for the amended C6: the sample search is the instance of the
theorem at the six-profile store with query text fl; the concrete run keeps
the five smallest keys and drops flux, which sorts sixth. -/
theorem searchUserProfiles_range_spec_witness :
    ofString "fl" ≠ [] ∧ jsTrim (ofString "fl") ≠ [] ∧
    (searchUserProfiles flDb (ofString "fl")).map Profile.id
      = ["4", "3", "5", "1", "2"] ∧
    (searchUserProfiles flDb (ofString "fl")).length
      = min (flDb.filter (rangeMatches (jsToLower (ofString "fl")))).length 5 := by
  refine ⟨by decide, by decide, by decide, ?_⟩
  exact (searchUserProfiles_range_spec flDb (ofString "fl")
    (by decide) (by decide)).2.2.1

/-! ## Message count: fetchChatMessagesCount in src/api/firebaseService.js -/

/-- A message document of the messages subcollection of a chat: document id
and creation timestamp. -/
structure Message where
  id : String
  createdAt : Nat
deriving DecidableEq

/-- Order used by the orderBy clause of the unread-count query: createdAt
ascending. -/
def msgLe (a b : Message) : Prop := a.createdAt ≤ b.createdAt

instance : DecidableRel msgLe := fun a b =>
  inferInstanceAs (Decidable (a.createdAt ≤ b.createdAt))

/-- Embeds fetchChatMessagesCount over the messages of one chat: with a
timestamp (a Date object is always truthy, null and undefined are falsy) the
query orders by createdAt ascending and keeps messages created strictly
after the timestamp, and the result is the size of the snapshot; without a
timestamp the plain collection query returns every message. -/
def fetchChatMessagesCount (msgs : List Message) (lastReadTimestamp : Option Nat) : Nat :=
  match lastReadTimestamp with
  | some t =>
    ((List.insertionSort msgLe msgs).filter
        (fun m => decide (t < m.createdAt))).length
  | none => msgs.length

/-- C10: the count is the total number of messages of the chat when no
timestamp is given, and the number of messages whose createdAt is strictly
greater than the timestamp when one is given (the orderBy clause does not
change the size of the result set). -/
theorem fetchChatMessagesCount_spec (msgs : List Message) (ts : Option Nat) :
    fetchChatMessagesCount msgs ts
      = match ts with
        | some t => (msgs.filter (fun m => decide (t < m.createdAt))).length
        | none => msgs.length := by
  cases ts with
  | none => rfl
  | some t =>
    exact ((List.perm_insertionSort msgLe msgs).filter _).length_eq

end GFN
